import Mathlib

/-!
# Verification of the notification rule synchronizer

Shallow embedding of the push-rule synchronization logic of
`src/components/views/settings/Notifications.tsx` (a React settings view
over a Matrix client SDK), together with proofs about it.

The embedding mirrors the source file: pure helpers (`maximumVectorState`,
`findInDefaultRules`, the classification loop of `refreshRules`) become Lean
functions; the sequential chains of remote mutation calls become pure
computations of call lists executed by an explicit interpreter (`runCalls`)
with first-failure-stops semantics, which is faithful because every remote
call in the source returns no data that later calls consume.
-/

namespace NotifSettings

/-- The three-level notification loudness used by the UI
(`VectorState` in the `notifications` module): Off, On, Loud. -/
inductive VectorState where
  | off
  | on
  | loud
deriving DecidableEq, Repr

/-- Abstract tokens for push-rule actions. The synchronizer never inspects
the semantics of an action, only whole action lists and their lengths, so the
precise shape of an action is irrelevant; distinct tokens keep lists
distinguishable. -/
inductive Action where
  | notify
  | dontNotify
  | sound
  | highlight
deriving DecidableEq, Repr

/-- A push rule as held by the client: identifier, kind, enabled flag,
ordered action list and (for content rules) a keyword pattern, with `""`
standing for an absent pattern (both are filtered identically by the
`!!k`-style checks in the source). -/
structure PushRule where
  rule_id : String
  kind : String
  enabled : Bool
  actions : List Action
  pattern : String := ""
deriving DecidableEq, Repr

/-- The rule classes of the settings view (`RuleClass` enum). -/
inductive RuleClass where
  | master
  | vectorGlobal
  | vectorMentions
  | vectorOther
  | other
deriving DecidableEq, Repr

/-- Key order of the `defaultRules` object literal in `refreshRules`,
which is the iteration order of the `for (const category in defaultRules)`
loop in `findInDefaultRules`. -/
def ruleClassOrder : List RuleClass :=
  [RuleClass.master, RuleClass.vectorGlobal, RuleClass.vectorMentions,
   RuleClass.vectorOther, RuleClass.other]

/-- Static definition attached to a vector rule (the
`VectorPushRuleDefinition` class of the `notifications` module, as described
by the spec's RuleDefinition data model): a description, a projection from a
rule to its VectorState, a map from VectorState to the action list to store
(none meaning "disable"), and an optional list of synced sibling rule ids. -/
structure VectorPushRuleDefinition where
  description : String := ""
  ruleToVectorState : PushRule → VectorState
  vectorStateToActions : VectorState → Option (List Action)
  syncedRuleIds : Option (List String) := none

/-- `findInDefaultRules`: scan the categories in object-key order and return
the first rule in any category whose `rule_id` matches. -/
def findInDefaultRules (ruleId : String) (defaultRules : RuleClass → List PushRule) :
    Option PushRule :=
  ruleClassOrder.findSome? fun category =>
    (defaultRules category).find? fun rule => rule.rule_id = ruleId

/-- `OrderedVectorStates`: vector states ordered by loudness, ascending. -/
def OrderedVectorStates : List VectorState :=
  [VectorState.off, VectorState.on, VectorState.loud]

/-- Position of a state in `OrderedVectorStates`, as used by the source's
`indexOf` comparisons. -/
def stateIdx (s : VectorState) : Nat :=
  OrderedVectorStates.indexOf s

/-- One step of the fold inside `maximumVectorState`: short-circuit at Loud,
otherwise look the sibling id up in the rule table and, if found and its
state (computed via the parent rule's `definition.ruleToVectorState`) is
louder than the running maximum, take it. -/
def maxStateStep (defaultRules : RuleClass → List PushRule)
    (definition : VectorPushRuleDefinition)
    (maxVectorState : VectorState) (ruleId : String) : VectorState :=
  if maxVectorState = VectorState.loud then maxVectorState
  else
    match findInDefaultRules ruleId defaultRules with
    | some syncedRule =>
        let syncedRuleVectorState := definition.ruleToVectorState syncedRule
        if stateIdx maxVectorState < stateIdx syncedRuleVectorState then
          syncedRuleVectorState
        else maxVectorState
    | none => maxVectorState

/-- `maximumVectorState` (Notifications.tsx lines 158-186): `none` when the
definition has no (or an empty) synced id list; otherwise the fold over the
synced ids starting from the parent rule's own state. -/
def maximumVectorState (defaultRules : RuleClass → List PushRule)
    (rule : PushRule) (definition : VectorPushRuleDefinition) :
    Option VectorState :=
  match definition.syncedRuleIds with
  | none => none
  | some [] => none
  | some ids =>
      some (ids.foldl (maxStateStep defaultRules definition)
        (definition.ruleToVectorState rule))

/-- Modelled from the spec: the spec's reading of `computeDisplayState`, in
which each sibling's VectorState is computed "via the *sibling's own*
definition (not the parent's)". The sibling-id-to-definition table `defs`
stands for the static `VectorPushRulesDefinitions` map (not present under
`src/`); everything else mirrors `maximumVectorState`. -/
def maximumVectorStateBySibling (defs : String → VectorPushRuleDefinition)
    (defaultRules : RuleClass → List PushRule)
    (rule : PushRule) (definition : VectorPushRuleDefinition) :
    Option VectorState :=
  match definition.syncedRuleIds with
  | none => none
  | some [] => none
  | some ids =>
      some (ids.foldl
        (fun maxVectorState ruleId =>
          if maxVectorState = VectorState.loud then maxVectorState
          else
            match findInDefaultRules ruleId defaultRules with
            | some syncedRule =>
                let s := (defs ruleId).ruleToVectorState syncedRule
                if stateIdx maxVectorState < stateIdx s then s
                else maxVectorState
            | none => maxVectorState)
        (definition.ruleToVectorState rule))

/-- Every state index is at most the index of Loud. -/
lemma stateIdx_le_two (s : VectorState) : stateIdx s ≤ 2 := by
  cases s <;> decide

/-- The running maximum never decreases across one fold step. -/
lemma le_maxStateStep (dr : RuleClass → List PushRule)
    (d : VectorPushRuleDefinition) (m : VectorState) (rid : String) :
    stateIdx m ≤ stateIdx (maxStateStep dr d m rid) := by
  unfold maxStateStep
  split
  · exact le_refl _
  · split
    · dsimp only
      split
      · omega
      · exact le_refl _
    · exact le_refl _

/-- If the sibling id resolves in the rule table, its state (via the parent
definition) is bounded by the result of the fold step. -/
lemma sibling_le_maxStateStep (dr : RuleClass → List PushRule)
    (d : VectorPushRuleDefinition) (m : VectorState) (rid : String)
    (s : PushRule) (hfind : findInDefaultRules rid dr = some s) :
    stateIdx (d.ruleToVectorState s) ≤ stateIdx (maxStateStep dr d m rid) := by
  unfold maxStateStep
  split
  · next hm =>
    subst hm
    exact stateIdx_le_two _
  · rw [hfind]
    dsimp only
    split
    · exact le_refl _
    · omega

/-- A fold step yields either the running maximum itself or the state of a
resolvable sibling. -/
lemma maxStateStep_cases (dr : RuleClass → List PushRule)
    (d : VectorPushRuleDefinition) (m : VectorState) (rid : String) :
    maxStateStep dr d m rid = m ∨
      ∃ s, findInDefaultRules rid dr = some s ∧
        maxStateStep dr d m rid = d.ruleToVectorState s := by
  unfold maxStateStep
  split
  · exact Or.inl rfl
  · split
    · next s hfind =>
      dsimp only
      split
      · exact Or.inr ⟨s, hfind, rfl⟩
      · exact Or.inl rfl
    · exact Or.inl rfl

/-- The fold over sibling ids never drops below its starting state. -/
lemma init_le_foldl_maxStateStep (dr : RuleClass → List PushRule)
    (d : VectorPushRuleDefinition) :
    ∀ (ids : List String) (init : VectorState),
      stateIdx init ≤ stateIdx (ids.foldl (maxStateStep dr d) init) := by
  intro ids
  induction ids with
  | nil => intro init; exact le_refl _
  | cons a l ih =>
      intro init
      exact le_trans (le_maxStateStep dr d init a) (ih (maxStateStep dr d init a))

/-- Every resolvable sibling's state is bounded by the fold's result. -/
lemma sibling_le_foldl_maxStateStep (dr : RuleClass → List PushRule)
    (d : VectorPushRuleDefinition) :
    ∀ (ids : List String) (init : VectorState) (rid : String), rid ∈ ids →
      ∀ s, findInDefaultRules rid dr = some s →
        stateIdx (d.ruleToVectorState s) ≤
          stateIdx (ids.foldl (maxStateStep dr d) init) := by
  intro ids
  induction ids with
  | nil => intro init rid h; exact absurd h (List.not_mem_nil rid)
  | cons a l ih =>
      intro init rid hmem s hfind
      rcases List.mem_cons.mp hmem with h | h
      · subst h
        exact le_trans (sibling_le_maxStateStep dr d init rid s hfind)
          (init_le_foldl_maxStateStep dr d l _)
      · exact ih (maxStateStep dr d init a) rid h s hfind

/-- The fold's result is either its starting state or the state of some
resolvable sibling: ids missing from the rule table contribute nothing. -/
lemma foldl_maxStateStep_cases (dr : RuleClass → List PushRule)
    (d : VectorPushRuleDefinition) :
    ∀ (ids : List String) (init : VectorState),
      ids.foldl (maxStateStep dr d) init = init ∨
        ∃ rid ∈ ids, ∃ s, findInDefaultRules rid dr = some s ∧
          ids.foldl (maxStateStep dr d) init = d.ruleToVectorState s := by
  intro ids
  induction ids with
  | nil => intro init; exact Or.inl rfl
  | cons a l ih =>
      intro init
      rcases ih (maxStateStep dr d init a) with h | ⟨rid, hmem, s, hfind, heq⟩
      · rcases maxStateStep_cases dr d init a with h0 | ⟨s, hfind, h0⟩
        · exact Or.inl (by rw [List.foldl_cons, h, h0])
        · exact Or.inr ⟨a, List.mem_cons_self a l, s, hfind,
            by rw [List.foldl_cons, h, h0]⟩
      · exact Or.inr ⟨rid, List.mem_cons_of_mem a hmem, s, hfind, heq⟩

/-- Claim C2: for every rule whose definition has a defined, non-empty
synced group, `maximumVectorState` returns a state that is at least the
rule's own state and at least every resolvable sibling's state under the
order Off < On < Loud (measured by position in `OrderedVectorStates`), and
that state is attained by the rule itself or by some resolvable sibling —
sibling ids not found in the rule table contribute nothing. -/
theorem c2_display_state_is_loudest (dr : RuleClass → List PushRule)
    (r : PushRule) (d : VectorPushRuleDefinition) (ids : List String)
    (hids : d.syncedRuleIds = some ids) (hne : ids ≠ []) :
    ∃ v, maximumVectorState dr r d = some v ∧
      stateIdx (d.ruleToVectorState r) ≤ stateIdx v ∧
      (∀ rid ∈ ids, ∀ s, findInDefaultRules rid dr = some s →
        stateIdx (d.ruleToVectorState s) ≤ stateIdx v) ∧
      (v = d.ruleToVectorState r ∨
        ∃ rid ∈ ids, ∃ s, findInDefaultRules rid dr = some s ∧
          v = d.ruleToVectorState s) := by
  match ids, hne with
  | a :: l, _ =>
    refine ⟨(a :: l).foldl (maxStateStep dr d) (d.ruleToVectorState r), ?_, ?_, ?_, ?_⟩
    · unfold maximumVectorState
      rw [hids]
    · exact init_le_foldl_maxStateStep dr d (a :: l) _
    · intro rid hmem s hfind
      exact sibling_le_foldl_maxStateStep dr d (a :: l) _ rid hmem s hfind
    · rcases foldl_maxStateStep_cases dr d (a :: l) (d.ruleToVectorState r) with h | h
      · exact Or.inl h
      · exact Or.inr h

/-- Sample parent rule used to instantiate theorems at concrete inputs. -/
def sampleParentRule : PushRule :=
  { rule_id := ".m.rule.message", kind := "underride", enabled := true,
    actions := [Action.notify] }

/-- Sample sibling rule whose action list carries the loud flavor. -/
def sampleSiblingRule : PushRule :=
  { rule_id := ".m.rule.encrypted", kind := "underride", enabled := true,
    actions := [Action.notify, Action.sound, Action.highlight] }

/-- Sample rule table holding the parent and sibling in the global class. -/
def sampleTable : RuleClass → List PushRule
  | RuleClass.vectorGlobal => [sampleParentRule, sampleSiblingRule]
  | _ => []

/-- Sample definition: three actions read as Loud, one as On, else Off;
synced to the encrypted sibling. -/
def sampleDef : VectorPushRuleDefinition :=
  { ruleToVectorState := fun r =>
      if r.actions.length = 3 then VectorState.loud
      else if r.actions.length = 1 then VectorState.on
      else VectorState.off,
    vectorStateToActions := fun s =>
      match s with
      | VectorState.off => none
      | VectorState.on => some [Action.notify]
      | VectorState.loud => some [Action.notify, Action.sound, Action.highlight],
    syncedRuleIds := some [".m.rule.encrypted"] }

/-- Witness for C2 at a concrete rule table and definition. -/
theorem c2_display_state_is_loudest_witness :
    ∃ v, maximumVectorState sampleTable sampleParentRule sampleDef = some v ∧
      stateIdx (sampleDef.ruleToVectorState sampleParentRule) ≤ stateIdx v ∧
      (∀ rid ∈ [".m.rule.encrypted"], ∀ s,
        findInDefaultRules rid sampleTable = some s →
        stateIdx (sampleDef.ruleToVectorState s) ≤ stateIdx v) ∧
      (v = sampleDef.ruleToVectorState sampleParentRule ∨
        ∃ rid ∈ [".m.rule.encrypted"], ∃ s,
          findInDefaultRules rid sampleTable = some s ∧
          v = sampleDef.ruleToVectorState s) :=
  c2_display_state_is_loudest sampleTable sampleParentRule sampleDef
    [".m.rule.encrypted"] rfl (by decide)

/-- Parent rule for the C1 counterexample. -/
def c1ParentRule : PushRule :=
  { rule_id := "parent", kind := "underride", enabled := true, actions := [] }

/-- Sibling rule for the C1 counterexample. -/
def c1SiblingRule : PushRule :=
  { rule_id := "sibling", kind := "underride", enabled := true, actions := [] }

/-- Rule table for the C1 counterexample. -/
def c1Table : RuleClass → List PushRule
  | RuleClass.vectorGlobal => [c1ParentRule, c1SiblingRule]
  | _ => []

/-- Parent definition for the C1 counterexample: maps every rule to Off and
names one synced sibling. -/
def c1ParentDef : VectorPushRuleDefinition :=
  { ruleToVectorState := fun _ => VectorState.off,
    vectorStateToActions := fun _ => none,
    syncedRuleIds := some ["sibling"] }

/-- Sibling's own definition for the C1 counterexample: maps every rule to
Loud. -/
def c1SiblingDef : VectorPushRuleDefinition :=
  { ruleToVectorState := fun _ => VectorState.loud,
    vectorStateToActions := fun _ => none }

/-- Definition table for the C1 counterexample. -/
def c1Defs : String → VectorPushRuleDefinition := fun _ => c1SiblingDef

/-- Counterexample to claim C1: at this concrete input the code's
`maximumVectorState` (which applies the parent's `ruleToVectorState` to the
sibling, yielding Off) differs from the spec's sibling-own-definition
reading (which yields Loud). -/
theorem c1_counterexample :
    maximumVectorState c1Table c1ParentRule c1ParentDef = some VectorState.off ∧
    maximumVectorStateBySibling c1Defs c1Table c1ParentRule c1ParentDef =
      some VectorState.loud ∧
    maximumVectorState c1Table c1ParentRule c1ParentDef ≠
      maximumVectorStateBySibling c1Defs c1Table c1ParentRule c1ParentDef := by
  refine ⟨rfl, rfl, ?_⟩
  intro h
  simp only [maximumVectorState, maximumVectorStateBySibling] at h
  exact Option.noConfusion h (fun h0 => VectorState.noConfusion h0)

/-- Claim C1 amended: in `maximumVectorState` every sibling's VectorState is
computed via the parent rule's definition, i.e. the code coincides with the
spec-shaped fold exactly when every sibling's definition is taken to be the
parent's own. -/
theorem c1_amended_sibling_state_uses_parent_definition
    (dr : RuleClass → List PushRule) (r : PushRule)
    (d : VectorPushRuleDefinition) :
    maximumVectorState dr r d = maximumVectorStateBySibling (fun _ => d) dr r d :=
  rfl

/-- A remote mutation call against the rule service. The source always
passes scope `"global"`, so the scope argument is omitted. The constructors
mirror `setPushRuleActions`, `setPushRuleEnabled`, `addPushRule` and
`deletePushRule` of the client SDK (spec's external interface). -/
inductive RemoteCall where
  | setActions (kind : String) (ruleId : String) (actions : List Action)
  | setEnabled (kind : String) (ruleId : String) (enabled : Bool)
  | addRule (kind : String) (ruleId : String) (actions : List Action) (pattern : String)
  | deleteRule (kind : String) (ruleId : String)
deriving DecidableEq, Repr

/-- Modelled from the spec: effect of one successful remote call on the
server's rule table (the remote rule service of spec section 6, not present
under `src/`): per-rule updates of the enabled flag or the action list,
append of a new enabled rule, and removal. `setEnabled` touches only the
enabled flag, `setActions` only the action list. -/
def applyCall (store : List PushRule) : RemoteCall → List PushRule
  | RemoteCall.setActions k rid acts =>
      store.map fun r =>
        if r.rule_id = rid ∧ r.kind = k then { r with actions := acts } else r
  | RemoteCall.setEnabled k rid e =>
      store.map fun r =>
        if r.rule_id = rid ∧ r.kind = k then { r with enabled := e } else r
  | RemoteCall.addRule k rid acts pat =>
      store ++ [{ rule_id := rid, kind := k, enabled := true,
                  actions := acts, pattern := pat }]
  | RemoteCall.deleteRule k rid =>
      store.filter fun r => ¬(r.rule_id = rid ∧ r.kind = k)

/-- Sequential execution of a call list starting at position `i`:
each call is issued in order; if the failure schedule `fails` rejects the
call at the current position, execution stops there — the failing call is
issued but has no effect, later calls are never issued. Returns the final
store, the trace of issued calls and a success flag. This models the
source's `await` chains of void-returning SDK calls inside a `try` block. -/
def runCallsFrom (fails : Nat → Bool) :
    Nat → List PushRule → List RemoteCall →
    List PushRule × List RemoteCall × Bool
  | _, store, [] => (store, [], true)
  | i, store, c :: cs =>
      if fails i then (store, [c], false)
      else
        let rest := runCallsFrom fails (i + 1) (applyCall store c) cs
        (rest.1, c :: rest.2.1, rest.2.2)

/-- Run a call list from position 0. -/
def runCalls (fails : Nat → Bool) (store : List PushRule)
    (calls : List RemoteCall) : List PushRule × List RemoteCall × Bool :=
  runCallsFrom fails 0 store calls

/-- When no call up to the list's length fails, every call is issued in
order and the final store is the left fold of the effects. -/
lemma runCallsFrom_no_failure (fails : Nat → Bool) :
    ∀ (calls : List RemoteCall) (i : Nat) (store : List PushRule),
      (∀ j, j < calls.length → fails (i + j) = false) →
      runCallsFrom fails i store calls =
        (calls.foldl applyCall store, calls, true) := by
  intro calls
  induction calls with
  | nil => intro i store _; rfl
  | cons c cs ih =>
      intro i store h
      have h0 : fails i = false := by
        have := h 0 (Nat.succ_pos cs.length)
        simpa using this
      unfold runCallsFrom
      rw [h0]
      simp only [Bool.false_eq_true, if_false]
      rw [ih (i + 1) (applyCall store c)
        (fun j hj => by
          have h1 := h (j + 1) (Nat.succ_lt_succ hj)
          have h2 : i + (j + 1) = i + 1 + j := by omega
          rw [h2] at h1
          exact h1)]
      rfl

/-- When the first failing position is `j` (within the list), execution
issues exactly the first `j + 1` calls, applies the effects of the first `j`
only, and reports failure. -/
lemma runCallsFrom_first_failure (fails : Nat → Bool) :
    ∀ (calls : List RemoteCall) (i : Nat) (store : List PushRule) (j : Nat),
      j < calls.length →
      (∀ k, k < j → fails (i + k) = false) →
      fails (i + j) = true →
      runCallsFrom fails i store calls =
        ((calls.take j).foldl applyCall store, calls.take (j + 1), false) := by
  intro calls
  induction calls with
  | nil => intro i store j hj; exact absurd hj (Nat.not_lt_zero j)
  | cons c cs ih =>
      intro i store j hj hbefore hfail
      cases j with
      | zero =>
          have h0 : fails i = true := by simpa using hfail
          unfold runCallsFrom
          rw [h0]
          simp
      | succ j0 =>
          have h0 : fails i = false := by
            have := hbefore 0 (Nat.succ_pos j0)
            simpa using this
          unfold runCallsFrom
          rw [h0]
          simp only [Bool.false_eq_true, if_false]
          rw [ih (i + 1) (applyCall store c) j0 (Nat.lt_of_succ_lt_succ hj)
            (fun k hk => by
              have h1 := hbefore (k + 1) (Nat.succ_lt_succ hk)
              have h2 : i + (k + 1) = i + 1 + k := by omega
              rw [h2] at h1
              exact h1)
            (by
              have h2 : i + (j0 + 1) = i + 1 + j0 := by omega
              rw [h2] at hfail
              exact hfail)]
          simp [List.take_succ_cons, List.foldl_cons]

/-- Failure-at-`j` behaviour of `runCalls` (position 0 instance). -/
lemma runCalls_first_failure (fails : Nat → Bool) (store : List PushRule)
    (calls : List RemoteCall) (j : Nat) (hj : j < calls.length)
    (hbefore : ∀ k, k < j → fails k = false) (hfail : fails j = true) :
    runCalls fails store calls =
      ((calls.take j).foldl applyCall store, calls.take (j + 1), false) := by
  unfold runCalls
  exact runCallsFrom_first_failure fails calls 0 store j hj
    (fun k hk => by simpa using hbefore k hk)
    (by simpa using hfail)

/-- No-failure behaviour of `runCalls` (position 0 instance). -/
lemma runCalls_no_failure (fails : Nat → Bool) (store : List PushRule)
    (calls : List RemoteCall)
    (h : ∀ j, j < calls.length → fails j = false) :
    runCalls fails store calls = (calls.foldl applyCall store, calls, true) := by
  unfold runCalls
  exact runCallsFrom_no_failure fails calls 0 store
    (fun j hj => by simpa using h j hj)

/-- `setPushRuleActions` (Notifications.tsx lines 464-476), as the calls it
issues: with no actions a single disable call; otherwise set-actions then
enable, in that order. -/
def setPushRuleActionsCalls (ruleId : String) (kind : String)
    (actions : Option (List Action)) : List RemoteCall :=
  match actions with
  | none => [RemoteCall.setEnabled kind ruleId false]
  | some acts =>
      [RemoteCall.setActions kind ruleId acts,
       RemoteCall.setEnabled kind ruleId true]

/-- Modelled from the spec: the SDK's
`PushProcessor.getPushRuleAndKindById` (not present under `src/`; the spec
says "look each up in the rule table", and the source's doc comment says a
rule that does not exist is ignored): first rule in the table with the given
id, carrying its kind as a field. -/
def getPushRuleAndKindById (store : List PushRule) (ruleId : String) :
    Option PushRule :=
  store.find? fun r => r.rule_id = ruleId

/-- `updateSyncedRules` (Notifications.tsx lines 484-499), as the calls it
issues: resolve the synced rule ids against the user's rule table, drop the
unresolvable ones, and for each resolved sibling in list order issue the
same `setPushRuleActions` sequence. -/
def updateSyncedRulesCalls (store : List PushRule)
    (syncedRuleIds : Option (List String)) (actions : Option (List Action)) :
    List RemoteCall :=
  let syncedRules := (syncedRuleIds.getD []).filterMap (getPushRuleAndKindById store)
  syncedRules.flatMap fun syncedRule =>
    setPushRuleActionsCalls syncedRule.rule_id syncedRule.kind actions

/-- Non-keyword branch of `onRadioChecked` (Notifications.tsx lines
538-543), as the calls it issues: apply the target state's actions to the
rule itself, then propagate to the synced rules. -/
def onRadioCheckedRuleCalls (store : List PushRule) (rule : PushRule)
    (definition : VectorPushRuleDefinition) (checkedState : VectorState) :
    List RemoteCall :=
  let actions := definition.vectorStateToActions checkedState
  setPushRuleActionsCalls rule.rule_id rule.kind actions ++
    updateSyncedRulesCalls store definition.syncedRuleIds actions

/-- Claim C3: applying a VectorState to a rule with synced siblings issues
the parent's two-call (or one-call) sequence followed by, for every synced
sibling id resolvable in the user's rule table and in list order, the same
`setPushRuleActions` sequence; and when the call at position `j` is the
first to fail, exactly the first `j + 1` calls are issued, the store
reflects only the first `j` effects (no rollback), and failure is
reported — all later siblings are left un-synced. -/
theorem c3_synced_rules_sequential_stop_at_first_failure
    (store : List PushRule) (rule : PushRule)
    (definition : VectorPushRuleDefinition) (checkedState : VectorState)
    (fails : Nat → Bool) (j : Nat)
    (hj : j < (onRadioCheckedRuleCalls store rule definition checkedState).length)
    (hbefore : ∀ k, k < j → fails k = false) (hfail : fails j = true) :
    onRadioCheckedRuleCalls store rule definition checkedState =
      setPushRuleActionsCalls rule.rule_id rule.kind
        (definition.vectorStateToActions checkedState) ++
      ((definition.syncedRuleIds.getD []).filterMap
        (getPushRuleAndKindById store)).flatMap
        (fun syncedRule => setPushRuleActionsCalls syncedRule.rule_id
          syncedRule.kind (definition.vectorStateToActions checkedState)) ∧
    runCalls fails store (onRadioCheckedRuleCalls store rule definition checkedState) =
      (((onRadioCheckedRuleCalls store rule definition checkedState).take j).foldl
          applyCall store,
        (onRadioCheckedRuleCalls store rule definition checkedState).take (j + 1),
        false) :=
  ⟨rfl, runCalls_first_failure fails store _ j hj hbefore hfail⟩

/-- Flat rule table of the user, as consulted by the push processor. -/
def sampleStore : List PushRule := [sampleParentRule, sampleSiblingRule]

/-- Definition used by witnesses: parent synced to two siblings, of which
only the first id resolves in `sampleStore`. -/
def c3Def : VectorPushRuleDefinition :=
  { ruleToVectorState := sampleDef.ruleToVectorState,
    vectorStateToActions := sampleDef.vectorStateToActions,
    syncedRuleIds := some [".m.rule.encrypted", ".m.rule.missing"] }

/-- Witness for C3: concrete rule table, a failure at the third call (the
first call of the sibling's two-call sequence). -/
theorem c3_synced_rules_sequential_stop_at_first_failure_witness :
    onRadioCheckedRuleCalls sampleStore sampleParentRule c3Def VectorState.on =
      setPushRuleActionsCalls sampleParentRule.rule_id sampleParentRule.kind
        (c3Def.vectorStateToActions VectorState.on) ++
      ((c3Def.syncedRuleIds.getD []).filterMap
        (getPushRuleAndKindById sampleStore)).flatMap
        (fun syncedRule => setPushRuleActionsCalls syncedRule.rule_id
          syncedRule.kind (c3Def.vectorStateToActions VectorState.on)) ∧
    runCalls (fun i => i == 2) sampleStore
        (onRadioCheckedRuleCalls sampleStore sampleParentRule c3Def VectorState.on) =
      (((onRadioCheckedRuleCalls sampleStore sampleParentRule c3Def
            VectorState.on).take 2).foldl applyCall sampleStore,
        (onRadioCheckedRuleCalls sampleStore sampleParentRule c3Def
            VectorState.on).take 3,
        false) :=
  c3_synced_rules_sequential_stop_at_first_failure sampleStore sampleParentRule
    c3Def VectorState.on (fun i => i == 2) 2 (by decide)
    (fun k hk => by
      interval_cases k <;> rfl)
    rfl

/-- Claim C4: applying a target state that maps to no actions issues only a
single disable call — no `setActions` call is made, the matching rule's
enabled flag becomes false, and no rule's stored action list changes. -/
theorem c4_no_actions_disables_without_touching_actions
    (store : List PushRule) (ruleId : String) (kind : String) :
    setPushRuleActionsCalls ruleId kind none =
      [RemoteCall.setEnabled kind ruleId false] ∧
    (∀ acts, RemoteCall.setActions kind ruleId acts ∉
      setPushRuleActionsCalls ruleId kind none) ∧
    (runCalls (fun _ => false) store (setPushRuleActionsCalls ruleId kind none)).1.map
        (fun r => r.actions) = store.map (fun r => r.actions) ∧
    ∀ r ∈ (runCalls (fun _ => false) store (setPushRuleActionsCalls ruleId kind none)).1,
      r.rule_id = ruleId → r.kind = kind → r.enabled = false := by
  refine ⟨rfl, ?_, ?_, ?_⟩
  · intro acts h
    simp [setPushRuleActionsCalls] at h
  · rw [runCalls_no_failure _ _ _ (fun j hj => rfl)]
    simp only [setPushRuleActionsCalls, List.foldl_cons, List.foldl_nil, applyCall]
    rw [List.map_map]
    apply List.map_congr_left
    intro r _
    by_cases h : r.rule_id = ruleId ∧ r.kind = kind <;> simp [h]
  · rw [runCalls_no_failure _ _ _ (fun j hj => rfl)]
    simp only [setPushRuleActionsCalls, List.foldl_cons, List.foldl_nil, applyCall]
    intro r hr hid hkind
    rcases List.mem_map.mp hr with ⟨r0, _, heq⟩
    by_cases h : r0.rule_id = ruleId ∧ r0.kind = kind
    · rw [if_pos h] at heq
      rw [← heq]
    · rw [if_neg h] at heq
      subst heq
      exact absurd ⟨hid, hkind⟩ h

/-- Witness for C4 at a concrete store and rule identity. -/
theorem c4_no_actions_disables_without_touching_actions_witness :
    setPushRuleActionsCalls ".m.rule.message" "underride" none =
      [RemoteCall.setEnabled "underride" ".m.rule.message" false] ∧
    (∀ acts, RemoteCall.setActions "underride" ".m.rule.message" acts ∉
      setPushRuleActionsCalls ".m.rule.message" "underride" none) ∧
    (runCalls (fun _ => false) [sampleParentRule, sampleSiblingRule]
        (setPushRuleActionsCalls ".m.rule.message" "underride" none)).1.map
        (fun r => r.actions) =
      [sampleParentRule, sampleSiblingRule].map (fun r => r.actions) ∧
    ∀ r ∈ (runCalls (fun _ => false) [sampleParentRule, sampleSiblingRule]
        (setPushRuleActionsCalls ".m.rule.message" "underride" none)).1,
      r.rule_id = ".m.rule.message" → r.kind = "underride" → r.enabled = false :=
  c4_no_actions_disables_without_touching_actions
    [sampleParentRule, sampleSiblingRule] ".m.rule.message" "underride"

/-- Modelled from the spec: `PushRuleVectorState.actionsFor` of the
`notifications` module (not present under `src/`). The spec fixes the action
counts — the On encoding is a single action and the Loud keyword-rule
encoding is exactly 3 actions ("one content match yields 3 action slots in
the underlying loud action encoding"); no encoding is given for Off, which
the UI realises by disabling, so an empty list stands in. -/
def actionsFor : VectorState → List Action
  | VectorState.off => []
  | VectorState.on => [Action.notify]
  | VectorState.loud => [Action.notify, Action.sound, Action.highlight]

/-- One keyword rule's slice of the keyword branch of `onRadioChecked`
(Notifications.tsx lines 508-537), as the calls it issues for that rule:
for On, rewrite actions when the current count is not 1; for Loud, when it
is not 3; for On/Loud additionally enable when the aggregate state was Off;
for Off, disable. An actions rewrite is issued before an enabled change. -/
def keywordRuleCalls (aggState : VectorState) (checkedState : VectorState)
    (rule : PushRule) : List RemoteCall :=
  let actions : Option (List Action) :=
    if checkedState = VectorState.on then
      if rule.actions.length ≠ 1 then some (actionsFor checkedState) else none
    else if checkedState = VectorState.loud then
      if rule.actions.length ≠ 3 then some (actionsFor checkedState) else none
    else none
  let enabled : Option Bool :=
    if checkedState = VectorState.on ∨ checkedState = VectorState.loud then
      if aggState = VectorState.off then some true else none
    else some false
  (match actions with
   | some acts => [RemoteCall.setActions rule.kind rule.rule_id acts]
   | none => []) ++
  (match enabled with
   | some e => [RemoteCall.setEnabled rule.kind rule.rule_id e]
   | none => [])

/-- Keyword branch of `onRadioChecked` as the full batch of calls: each
keyword rule's slice in rule-list order. -/
def onRadioCheckedKeywordCalls (aggState : VectorState)
    (checkedState : VectorState) (rules : List PushRule) : List RemoteCall :=
  rules.flatMap (keywordRuleCalls aggState checkedState)

/-- Claim C5: in the keyword aggregate operation, for target On a rule's
actions are rewritten iff its current action count is not 1; for target
Loud iff its count is not 3; and for both targets the rule is explicitly
enabled iff the aggregate's current state was Off. -/
theorem c5_keyword_rewrite_and_enable_conditions (aggState : VectorState)
    (rule : PushRule) :
    ((∃ acts, RemoteCall.setActions rule.kind rule.rule_id acts ∈
        keywordRuleCalls aggState VectorState.on rule) ↔
      rule.actions.length ≠ 1) ∧
    ((∃ acts, RemoteCall.setActions rule.kind rule.rule_id acts ∈
        keywordRuleCalls aggState VectorState.loud rule) ↔
      rule.actions.length ≠ 3) ∧
    (RemoteCall.setEnabled rule.kind rule.rule_id true ∈
        keywordRuleCalls aggState VectorState.on rule ↔
      aggState = VectorState.off) ∧
    (RemoteCall.setEnabled rule.kind rule.rule_id true ∈
        keywordRuleCalls aggState VectorState.loud rule ↔
      aggState = VectorState.off) := by
  refine ⟨?_, ?_, ?_, ?_⟩ <;>
    · simp only [keywordRuleCalls]
      by_cases h1 : rule.actions.length = 1 <;>
        by_cases h3 : rule.actions.length = 3 <;>
          cases aggState <;> simp [h1, h3]

/-- Witness for C5 at a concrete aggregate state and keyword rule. -/
theorem c5_keyword_rewrite_and_enable_conditions_witness :
    ((∃ acts, RemoteCall.setActions sampleSiblingRule.kind
        sampleSiblingRule.rule_id acts ∈
        keywordRuleCalls VectorState.off VectorState.on sampleSiblingRule) ↔
      sampleSiblingRule.actions.length ≠ 1) ∧
    ((∃ acts, RemoteCall.setActions sampleSiblingRule.kind
        sampleSiblingRule.rule_id acts ∈
        keywordRuleCalls VectorState.off VectorState.loud sampleSiblingRule) ↔
      sampleSiblingRule.actions.length ≠ 3) ∧
    (RemoteCall.setEnabled sampleSiblingRule.kind sampleSiblingRule.rule_id true ∈
        keywordRuleCalls VectorState.off VectorState.on sampleSiblingRule ↔
      VectorState.off = VectorState.off) ∧
    (RemoteCall.setEnabled sampleSiblingRule.kind sampleSiblingRule.rule_id true ∈
        keywordRuleCalls VectorState.off VectorState.loud sampleSiblingRule ↔
      VectorState.off = VectorState.off) :=
  c5_keyword_rewrite_and_enable_conditions VectorState.off sampleSiblingRule

/-- Claim C6: keyword batch mutations run strictly sequentially and halt on
the first failure — when the second remote call of the batch rejects, only
the first two calls are ever issued, the store reflects exactly the first
call's effect (committed, no compensating rollback), and failure is
reported. -/
theorem c6_keyword_batch_halts_on_first_failure (aggState : VectorState)
    (checkedState : VectorState) (rules : List PushRule)
    (store : List PushRule) (fails : Nat → Bool)
    (h0 : fails 0 = false) (h1 : fails 1 = true)
    (hlen : 2 ≤ (onRadioCheckedKeywordCalls aggState checkedState rules).length) :
    runCalls fails store (onRadioCheckedKeywordCalls aggState checkedState rules) =
      (((onRadioCheckedKeywordCalls aggState checkedState rules).take 1).foldl
          applyCall store,
        (onRadioCheckedKeywordCalls aggState checkedState rules).take 2,
        false) :=
  runCalls_first_failure fails store _ 1 hlen
    (fun k hk => by
      interval_cases k
      exact h0)
    h1

/-- Keyword rules used by the C6 witness: three content rules, each needing
a rewrite and an enable, so the batch holds more than two calls. -/
def c6KeywordRules : List PushRule :=
  [{ rule_id := "alpha", kind := "content", enabled := false,
     actions := [], pattern := "alpha" },
   { rule_id := "beta", kind := "content", enabled := false,
     actions := [], pattern := "beta" },
   { rule_id := "gamma", kind := "content", enabled := false,
     actions := [], pattern := "gamma" }]

/-- Witness for C6: three keyword rules being turned On from an Off
aggregate, with the second remote call rejecting. -/
theorem c6_keyword_batch_halts_on_first_failure_witness :
    runCalls (fun i => i == 1) c6KeywordRules
        (onRadioCheckedKeywordCalls VectorState.off VectorState.on c6KeywordRules) =
      (((onRadioCheckedKeywordCalls VectorState.off VectorState.on
            c6KeywordRules).take 1).foldl applyCall c6KeywordRules,
        (onRadioCheckedKeywordCalls VectorState.off VectorState.on
            c6KeywordRules).take 2,
        false) :=
  c6_keyword_batch_halts_on_first_failure VectorState.off VectorState.on
    c6KeywordRules c6KeywordRules (fun i => i == 1) rfl rfl (by decide)

/-- Result of a keyword diff: words to create rules for and words whose
rules get deleted. -/
structure KeywordDiff where
  added : List String
  removed : List String
deriving DecidableEq, Repr

/-- Modelled from the spec: `arrayDiff` of `utils/arrays` (not present under
`src/`; the spec calls `diffKeywords` a "pure set diff (added, removed)"):
added are the new-list elements absent from the old list, removed the
old-list elements absent from the new list. -/
def arrayDiff (a b : List String) : KeywordDiff :=
  { added := b.filter fun x => !a.contains x,
    removed := a.filter fun x => !b.contains x }

/-- `Array.from(new Set(...))` as used in `setKeywords`: de-duplicate
keeping first occurrences in order. -/
def dedupList (ws : List String) : List String :=
  ws.foldl (fun acc w => if acc.contains w then acc else acc ++ [w]) []

/-- De-duplicate and drop empties, as `setKeywords` (lines 566-567) does to
both word lists before diffing (`.filter((k) => !!k)`). -/
def filterKeywords (ws : List String) : List String :=
  (dedupList ws).filter fun k => k ≠ ""

/-- The keyword diff computed by `setKeywords` (lines 563-573): de-duplicate
and drop empties on both sides, then set-diff old against new. -/
def diffKeywords (oldWords newWords : List String) : KeywordDiff :=
  arrayDiff (filterKeywords oldWords) (filterKeywords newWords)

/-- Claim C7: `diffKeywords` is the pure set diff after de-duplication and
empty-string filtering — on the claim's inputs it yields added `["c"]` /
removed `["a"]`, and `[]` / `[]`; empty strings are dropped before
diffing. -/
theorem c7_diffKeywords_examples :
    diffKeywords ["a", "b"] ["b", "c"] = { added := ["c"], removed := ["a"] } ∧
    diffKeywords ["a", "a"] ["a"] = { added := [], removed := [] } ∧
    diffKeywords ["a", ""] ["", "a"] = { added := [], removed := [] } := by
  decide

/-- `setKeywords` (lines 581-591): the rule state used when creating new
keyword rules — the aggregate state, except that an Off aggregate is
replaced by the flavor of the first existing rule (via
`PushRuleVectorState.contentRuleVectorStateKind`, abstracted as `flavor`
since that module is not under `src/`), or On when no rules exist. -/
def resolvedKeywordState (flavor : PushRule → VectorState)
    (aggState : VectorState) (originalRules : List PushRule) : VectorState :=
  if aggState = VectorState.off then
    match originalRules with
    | [] => VectorState.on
    | r :: _ => flavor r
  else aggState

/-- `setKeywords` (lines 563-601), as the calls it issues: delete every rule
matching a removed word, then for each added word add a content rule with
the resolved state's actions, followed by a disable call exactly when the
resolved state is Off. Kind `"content"` is `PushRuleKind.ContentSpecific`. -/
def setKeywordsCalls (flavor : PushRule → VectorState)
    (aggState : VectorState) (originalRules : List PushRule)
    (keywords : List String) : List RemoteCall :=
  let newKeywords := filterKeywords keywords
  let oldKeywords := filterKeywords (originalRules.map fun r => r.pattern)
  let diff := arrayDiff oldKeywords newKeywords
  let removeCalls := diff.removed.flatMap fun word =>
    (originalRules.filter fun r => r.pattern = word).map fun r =>
      RemoteCall.deleteRule r.kind r.rule_id
  let ruleVectorState := resolvedKeywordState flavor aggState originalRules
  let addCalls := diff.added.flatMap fun word =>
    RemoteCall.addRule "content" word (actionsFor ruleVectorState) word ::
      (if ruleVectorState = VectorState.off then
        [RemoteCall.setEnabled "content" word false]
      else [])
  removeCalls ++ addCalls

/-- Counterexample to claim C10: adding keyword `"x"` while the aggregate
state is Off and no keyword rules exist issues no disable call at all, and
the newly created rule ends up enabled — the aggregate Off state is not
preserved. -/
theorem c10_counterexample :
    (RemoteCall.setEnabled "content" "x" false ∉
      setKeywordsCalls (fun _ => VectorState.on) VectorState.off [] ["x"]) ∧
    ∃ r, r ∈ (runCalls (fun _ => false) []
        (setKeywordsCalls (fun _ => VectorState.on) VectorState.off [] ["x"])).1 ∧
      r.rule_id = "x" ∧ r.enabled = true := by
  constructor
  · decide
  · exact ⟨{ rule_id := "x", kind := "content", enabled := true,
             actions := [Action.notify], pattern := "x" },
      by decide, rfl, rfl⟩

/-- Claim C10 amended: for every added keyword, `setKeywords` creates the
content rule with the actions of the resolved state (the aggregate state,
replaced when Off by the first existing rule's flavor, or On when no rules
exist), and it issues the follow-up disable call if and only if that
resolved state is Off — in particular a rule created with the On flavor is
left enabled. -/
theorem c10_amended_disable_iff_resolved_off
    (flavor : PushRule → VectorState) (aggState : VectorState)
    (originalRules : List PushRule) (keywords : List String) (word : String)
    (hadd : word ∈ (arrayDiff
      (filterKeywords (originalRules.map fun r => r.pattern))
      (filterKeywords keywords)).added) :
    RemoteCall.addRule "content" word
        (actionsFor (resolvedKeywordState flavor aggState originalRules)) word ∈
      setKeywordsCalls flavor aggState originalRules keywords ∧
    (RemoteCall.setEnabled "content" word false ∈
        setKeywordsCalls flavor aggState originalRules keywords ↔
      resolvedKeywordState flavor aggState originalRules = VectorState.off) := by
  simp only [setKeywordsCalls]
  constructor
  · refine List.mem_append_right _ ?_
    exact List.mem_flatMap.mpr ⟨word, hadd, List.mem_cons_self _ _⟩
  · constructor
    · intro hmem
      rcases List.mem_append.mp hmem with h | h
      · rcases List.mem_flatMap.mp h with ⟨w, _, hw⟩
        rcases List.mem_map.mp hw with ⟨r, _, heq⟩
        exact RemoteCall.noConfusion heq
      · rcases List.mem_flatMap.mp h with ⟨w, _, hw⟩
        rcases List.mem_cons.mp hw with heq | hin
        · exact RemoteCall.noConfusion heq
        · by_cases hoff : resolvedKeywordState flavor aggState originalRules =
            VectorState.off
          · exact hoff
          · rw [if_neg hoff] at hin
            exact absurd hin (List.not_mem_nil _)
    · intro hoff
      refine List.mem_append_right _ ?_
      refine List.mem_flatMap.mpr ⟨word, hadd, List.mem_cons_of_mem _ ?_⟩
      rw [if_pos hoff]
      exact List.mem_singleton_self _

/-- Witness for the amended C10: adding `"x"` with an On-resolving flavor at
a concrete input, where the add call carries the On actions and no disable
call follows. -/
theorem c10_amended_disable_iff_resolved_off_witness :
    RemoteCall.addRule "content" "x"
        (actionsFor (resolvedKeywordState (fun _ => VectorState.on)
          VectorState.off [])) "x" ∈
      setKeywordsCalls (fun _ => VectorState.on) VectorState.off [] ["x"] ∧
    (RemoteCall.setEnabled "content" "x" false ∈
        setKeywordsCalls (fun _ => VectorState.on) VectorState.off [] ["x"] ↔
      resolvedKeywordState (fun _ => VectorState.on) VectorState.off [] =
        VectorState.off) :=
  c10_amended_disable_iff_resolved_off (fun _ => VectorState.on)
    VectorState.off [] ["x"] "x" (by decide)

/-- The UI phases of the component (`Phase` enum). -/
inductive Phase where
  | loading
  | ready
  | persisting
  | error
deriving DecidableEq, Repr

/-- The `categories` record of `refreshRules` (lines 289-307), with the
js-sdk `RuleId` constants spelled out; unknown ids map to Other. -/
def categoryOf (ruleId : String) : RuleClass :=
  if ruleId = ".m.rule.master" then RuleClass.master
  else if ruleId = ".m.rule.room_one_to_one" ∨
      ruleId = ".m.rule.encrypted_room_one_to_one" ∨
      ruleId = ".m.rule.message" ∨ ruleId = ".m.rule.encrypted" then
    RuleClass.vectorGlobal
  else if ruleId = ".m.rule.contains_display_name" ∨
      ruleId = ".m.rule.contains_user_name" ∨
      ruleId = ".m.rule.roomnotif" then
    RuleClass.vectorMentions
  else if ruleId = ".m.rule.invite_for_me" ∨ ruleId = ".m.rule.call" ∨
      ruleId = ".m.rule.suppress_notices" ∨ ruleId = ".m.rule.tombstone" then
    RuleClass.vectorOther
  else RuleClass.other

/-- The classification loop of `refreshRules` (lines 319-331): annotate each
rule of each kind's list with that kind, and collect into a category the
default rules (id starting with `"."`) the `categories` record assigns to
it. -/
def classifyDefaultRules (ruleSets : List (String × List PushRule))
    (category : RuleClass) : List PushRule :=
  (ruleSets.flatMap fun p => p.2.map fun r => { r with kind := p.1 }).filter
    fun r => r.rule_id.startsWith "." = true ∧ categoryOf r.rule_id = category

/-- The master-rule step of `refreshRules` (lines 333-339): the first
classified master rule, or the raised error when there is none. The state
preparation that follows in the source cannot raise this error and is not
modelled here. -/
def refreshRulesMasterRule (ruleSets : List (String × List PushRule)) :
    Except String PushRule :=
  match classifyDefaultRules ruleSets RuleClass.master with
  | [] => Except.error "Failed to locate a master push rule"
  | r :: _ => Except.ok r

/-- Phase outcome of `refreshFromServer` (lines 246-269): Ready when the
rule refresh succeeds, Error when it throws. -/
def refreshFromServerPhase (ruleSets : List (String × List PushRule)) : Phase :=
  match refreshRulesMasterRule ruleSets with
  | Except.error _ => Phase.error
  | Except.ok _ => Phase.ready

/-- Only the master rule id is classified as master. -/
lemma categoryOf_eq_master (rid : String)
    (h : categoryOf rid = RuleClass.master) : rid = ".m.rule.master" := by
  by_contra hne
  unfold categoryOf at h
  rw [if_neg hne] at h
  split_ifs at h

/-- Claim C8: when the fetched rule sets contain no master push rule,
`refreshRules` raises the "Failed to locate a master push rule" error
rather than recovering, and `refreshFromServer` transitions the component
to the Error phase instead of Ready. -/
theorem c8_missing_master_rule_raises_and_errors
    (ruleSets : List (String × List PushRule))
    (h : ∀ p ∈ ruleSets, ∀ r ∈ p.2, r.rule_id ≠ ".m.rule.master") :
    refreshRulesMasterRule ruleSets =
      Except.error "Failed to locate a master push rule" ∧
    refreshFromServerPhase ruleSets = Phase.error ∧
    refreshFromServerPhase ruleSets ≠ Phase.ready := by
  have hcl : classifyDefaultRules ruleSets RuleClass.master = [] := by
    cases hcl : classifyDefaultRules ruleSets RuleClass.master with
    | nil => rfl
    | cons r rest =>
        exfalso
        have hr : r ∈ classifyDefaultRules ruleSets RuleClass.master := by
          rw [hcl]
          exact List.mem_cons_self _ _
        unfold classifyDefaultRules at hr
        have hr2 := List.mem_filter.mp hr
        have hprop := of_decide_eq_true hr2.2
        rcases List.mem_flatMap.mp hr2.1 with ⟨p, hp, hrp⟩
        rcases List.mem_map.mp hrp with ⟨r0, hr0, heq⟩
        have hid : r.rule_id = r0.rule_id := by rw [← heq]
        have hmaster := categoryOf_eq_master r.rule_id hprop.2
        exact h p hp r0 hr0 (by rw [← hid]; exact hmaster)
  have hrr : refreshRulesMasterRule ruleSets =
      Except.error "Failed to locate a master push rule" := by
    unfold refreshRulesMasterRule
    rw [hcl]
  refine ⟨hrr, ?_, ?_⟩
  · unfold refreshFromServerPhase
    rw [hrr]
  · unfold refreshFromServerPhase
    rw [hrr]
    intro hcontra
    exact Phase.noConfusion hcontra

/-- Rule sets used by the C8 witness: an underride kind holding one default
message rule and no master rule anywhere. -/
def c8RuleSets : List (String × List PushRule) :=
  [("underride", [sampleParentRule])]

/-- Witness for C8 at concrete fetched rule sets with no master rule. -/
theorem c8_missing_master_rule_raises_and_errors_witness :
    refreshRulesMasterRule c8RuleSets =
      Except.error "Failed to locate a master push rule" ∧
    refreshFromServerPhase c8RuleSets = Phase.error ∧
    refreshFromServerPhase c8RuleSets ≠ Phase.ready :=
  c8_missing_master_rule_raises_and_errors c8RuleSets (by decide)

/-- A third-party identifier of the account (medium and address). -/
structure Threepid where
  medium : String
  address : String
deriving DecidableEq, Repr

/-- A pusher of the account; only the fields the render logic consults. -/
structure Pusher where
  kind : String
  pushkey : String
deriving DecidableEq, Repr

/-- A prepared UI rule row (`IVectorPushRule`): rule id, its own state, and
the loudest synced state when the rule has synced rules. -/
structure IVectorPushRule where
  ruleId : String
  vectorState : VectorState
  syncedVectorState : Option VectorState := none
deriving DecidableEq, Repr

/-- The slice of the component state (`IState`) consulted when deciding
which pieces of UI to render. `hasUnreadRooms` stands for the
`MatrixClientPeg.get().getRooms().some((r) => r.getUnreadNotificationCount() > 0)`
query of `renderCategory`. Props that only grey out controls (the
Persisting checks) do not affect which nodes appear and are not modelled. -/
structure NotificationsState where
  masterPushRule : Option PushRule := none
  deviceNotificationsEnabled : Bool := true
  desktopNotifications : Bool := true
  desktopShowBody : Bool := true
  audioNotifications : Bool := true
  threepids : List Threepid := []
  pushers : List Pusher := []
  vectorPushRules : RuleClass → List IVectorPushRule := fun _ => []
  keywordPatterns : List String := []
  hasUnreadRooms : Bool := false

/-- Nodes the settings view can render, named after the source's elements:
the top-section switches, a category's grid of rule rows, the
clear-notifications button and the keyword composer. -/
inductive UINode where
  | masterSwitch (value : Bool)
  | deviceSwitch (value : Bool)
  | desktopSwitch (value : Bool)
  | desktopBodySwitch (value : Bool)
  | audioSwitch (value : Bool)
  | emailSwitch (address : String) (value : Bool)
  | categoryGrid (category : RuleClass) (ruleIds : List String)
  | clearNotifsButton
  | keywordComposer (tags : List String)
deriving DecidableEq, Repr

/-- `isInhibited` (lines 222-228): the master rule's enabled flag, inverted
in meaning — enabled master means all other rules are inhibited. -/
def isInhibited (s : NotificationsState) : Bool :=
  match s.masterPushRule with
  | some r => r.enabled
  | none => false

/-- `renderTopSection` (lines 658-729): the master switch alone when
inhibited; otherwise the master switch, the device switch, the three
session switches when device notifications are enabled, and one email
switch per email third-party identifier. -/
def renderTopSection (s : NotificationsState) : List UINode :=
  let masterSwitch := UINode.masterSwitch (!(isInhibited s))
  if isInhibited s then [masterSwitch]
  else
    masterSwitch ::
      UINode.deviceSwitch s.deviceNotificationsEnabled ::
      ((if s.deviceNotificationsEnabled then
          [UINode.desktopSwitch s.desktopNotifications,
           UINode.desktopBodySwitch s.desktopShowBody,
           UINode.audioSwitch s.audioNotifications]
        else []) ++
        (s.threepids.filter fun t => t.medium = "email").map fun t =>
          UINode.emailSwitch t.address
            (s.pushers.any fun p => p.kind == "email" && p.pushkey == t.address))

/-- `renderCategory` (lines 731-843): nothing for a non-Other category when
inhibited; for the Other category when inhibited, only the
clear-notifications button when some room is unread; otherwise the
category's grid of rule rows followed by the clear-notifications button
(Other category with unread rooms) and the keyword composer (Mentions
category). -/
def renderCategory (s : NotificationsState) (category : RuleClass) :
    List UINode :=
  if category ≠ RuleClass.vectorOther ∧ isInhibited s then []
  else
    let clearNotifsButton :=
      if category = RuleClass.vectorOther ∧ s.hasUnreadRooms then
        [UINode.clearNotifsButton]
      else []
    if category = RuleClass.vectorOther ∧ isInhibited s then clearNotifsButton
    else
      let keywordComposer :=
        if category = RuleClass.vectorMentions then
          [UINode.keywordComposer s.keywordPatterns]
        else []
      UINode.categoryGrid category
          ((s.vectorPushRules category).map fun r => r.ruleId) ::
        (clearNotifsButton ++ keywordComposer)

/-- Claim C9: whenever the master push rule's enabled flag is true, the top
section renders only the (off) master toggle and no category renders its
grid of rule rows. -/
theorem c9_inhibited_renders_only_master_toggle (s : NotificationsState)
    (h : isInhibited s = true) :
    renderTopSection s = [UINode.masterSwitch false] ∧
    ∀ category c ids, UINode.categoryGrid c ids ∉ renderCategory s category := by
  constructor
  · simp [renderTopSection, h]
  · intro category c ids hmem
    by_cases hu : s.hasUnreadRooms = true <;>
      cases category <;> simp_all [renderCategory, h, hu]

/-- Component state used by the C9 witness: an enabled master rule, rule
rows in every vector category and an unread room. -/
def c9State : NotificationsState :=
  { masterPushRule := some
      { rule_id := ".m.rule.master", kind := "override",
        enabled := true, actions := [Action.dontNotify] },
    threepids := [{ medium := "email", address := "a@b.c" }],
    pushers := [{ kind := "email", pushkey := "a@b.c" }],
    vectorPushRules := fun _ =>
      [{ ruleId := ".m.rule.message", vectorState := VectorState.on }],
    keywordPatterns := ["kw"],
    hasUnreadRooms := true }

/-- Witness for C9 at a concrete inhibited component state. -/
theorem c9_inhibited_renders_only_master_toggle_witness :
    renderTopSection c9State = [UINode.masterSwitch false] ∧
    ∀ category c ids, UINode.categoryGrid c ids ∉ renderCategory c9State category :=
  c9_inhibited_renders_only_master_toggle c9State rfl

end NotifSettings
